import Mathlib

/-!
# Verification of the PyPSA-Eur network simplification and clustering subsystem

Shallow embedding of the algorithms in `scripts/simplify_network.py` and
`scripts/cluster_network.py`, together with proofs of the specification's
testable properties.

Conventions of the embedding:
* python floats are modelled as `ℚ` (the algorithms only use field
  arithmetic and comparisons);
* pandas Series keyed by labels are modelled as association lists
  `List (String × α)` or as (partial) functions `String → Option α`;
* fallible code returns `Option`/`Except`;
* python `set` iteration, whose order is unspecified, is determinized to
  the enclosing index order (the order of `n.buses.index`).
-/

set_option autoImplicit false

namespace PyPSA

/-! ## Graph model

The static component tables of a pypsa network, restricted to the columns
the simplification and clustering claims read or write. -/

/-- A bus row of `n.buses`. -/
structure Bus where
  name : String
  x : ℚ
  y : ℚ
  v_nom : ℚ
  deriving DecidableEq

/-- A line row of `n.lines`.  The `s_nom` recomputation of
`simplify_network_to_380` multiplies by `sqrt(3)` (irrational) and is read
by no claim, so the column is not modelled. -/
structure Line where
  name : String
  bus0 : String
  bus1 : String
  v_nom : ℚ
  typ : String
  num_parallel : ℚ
  deriving DecidableEq

/-- A link row of `n.links`. -/
structure Link where
  name : String
  bus0 : String
  bus1 : String
  carrier : String
  length : ℚ
  p_nom : ℚ
  underwater_fraction : ℚ
  deriving DecidableEq

/-- A generator row of `n.generators`. -/
structure Generator where
  name : String
  bus : String
  carrier : String
  p_nom : ℚ
  capital_cost : ℚ
  deriving DecidableEq

/-- A load row of `n.loads`, with its mean time-series demand
(`n.loads_t.p_set.mean()`). -/
structure Load where
  name : String
  bus : String
  p_set : ℚ
  deriving DecidableEq

/-- The network.  Transformers are modelled by their `(bus0, bus1)`
endpoint pairs, the only columns `simplify_network_to_380` reads. -/
structure Network where
  buses : List Bus
  lines : List Line
  links : List Link
  transformers : List (String × String)
  generators : List Generator
  loads : List Load

/-! ## Cluster-Count Allocator (`cluster_network.distribute_clusters`)

`distribute_clusters` builds a pyomo model with integer variables `n_p`
bounded by `(1, N_p)`, the constraint `Σ n_p = n_clusters` and the objective
`Σ (n_p - L_p * n_clusters)^2`, solves it, and post-processes the solver
values with `pd.Series(...).round().astype(int)`.  When the configured
solver has no `quadratic_objective` capability it falls back to `ipopt`,
a continuous solver, so the solver values need not be integral.
-/

/-- Feasible point of the pyomo model of `distribute_clusters`:
`m.n = po.Var(list(L.index), bounds=(1, N[i]), domain=po.Integers)` relaxed
to its continuous bounds, with `m.tot : summation(m.n) == n_clusters`.
`x` is the vector of solver values, `N` the per-partition bus counts. -/
def feasibleAlloc (K : ℤ) (N : List ℤ) (x : List ℚ) : Prop :=
  x.length = N.length ∧ x.sum = (K : ℚ) ∧
    ∀ p ∈ x.zip N, 1 ≤ p.1 ∧ p.1 ≤ (p.2 : ℚ)

/-- The objective `sum((m.n[i] - L.loc[i]*n_clusters)**2 for i in L.index)`. -/
def allocObjective (K : ℤ) (L : List ℚ) (x : List ℚ) : ℚ :=
  ((x.zip L).map (fun p => (p.1 - p.2 * (K : ℚ)) ^ 2)).sum

/-- An optimal solution of the continuous relaxation solved by the `ipopt`
fallback: feasible, and of minimal objective among feasible points. -/
def optimalAlloc (K : ℤ) (N : List ℤ) (L : List ℚ) (x : List ℚ) : Prop :=
  feasibleAlloc K N x ∧
    ∀ y, feasibleAlloc K N y → allocObjective K L x ≤ allocObjective K L y

/-- numpy/pandas rounding used by `pd.Series(...).round()`:
round half to even. -/
def roundHalfToEven (q : ℚ) : ℤ :=
  let f := ⌊q⌋
  if q - f < 1 / 2 then f
  else if 1 / 2 < q - f then f + 1
  else if f % 2 = 0 then f else f + 1

/-- The value returned by `distribute_clusters` as a function of the solver
values: `pd.Series(m.n.get_values(), index=L.index).round().astype(int)`. -/
def distribute_clusters (x : List ℚ) : List ℤ :=
  x.map roundHalfToEven

/-! ## Busmap composition
(`simplify_network.simplified_regions`, `cluster_network.cluster_regions`)

Both functions compose a chain of busmaps with
`reduce(lambda x, y: x.map(y), busmaps[1:], busmaps[0])`.
A pandas Series mapping is a partial function: keys absent from the target
Series map to NaN, modelled by `Option`. -/

/-- A busmap, modelling a pandas Series of bus labels. -/
def Busmap : Type := String → Option String

/-- `x.map(y)` for two busmaps. -/
def seriesMap (x y : Busmap) : Busmap :=
  fun b => (x b).bind y

/-- `reduce(lambda x, y: x.map(y), busmaps[1:], busmaps[0])`. -/
def composeBusmaps : List Busmap → Busmap
  | [] => fun b => some b
  | x :: xs => xs.foldl seriesMap x

/-- Mapping one bus sequentially through each busmap of the chain in turn. -/
def applySequentially (bs : List Busmap) (b : String) : Option String :=
  bs.foldl (fun ob f => ob.bind f) (some b)

/-- Sample busmap for witnesses: `a ↦ m`. -/
def busmapAM : Busmap := fun b => if b = "a" then some "m" else none

/-- Sample busmap for witnesses: `m ↦ X`. -/
def busmapMX : Busmap := fun b => if b = "m" then some "X" else none

/-! ## Voltage Unification transformer map
(`simplify_network.simplify_network_to_380`)

```
trafo_map = pd.Series(n.transformers.bus1.values, index=n.transformers.bus0.values)
trafo_map = trafo_map[~trafo_map.index.duplicated(keep='first')]
several_trafo_b = trafo_map.isin(trafo_map.index)
trafo_map.loc[several_trafo_b] = trafo_map.loc[several_trafo_b].map(trafo_map)
missing_buses_i = n.buses.index.difference(trafo_map.index)
missing = pd.Series(missing_buses_i, missing_buses_i)
trafo_map = pd.concat([trafo_map, missing])
```
A transformer list is modelled as its `(bus0, bus1)` pairs. -/

/-- Drop association-list entries whose key already occurred
(`~trafo_map.index.duplicated(keep='first')`). -/
def dedupKeysGo : List (String × String) → List String → List (String × String)
  | [], _ => []
  | p :: ps, seen =>
    if p.1 ∈ seen then dedupKeysGo ps seen
    else p :: dedupKeysGo ps (p.1 :: seen)

/-- The deduplicated transformer Series. -/
def dedupKeysFirst (l : List (String × String)) : List (String × String) :=
  dedupKeysGo l []

/-- Association-list lookup falling back to the identity, modelling a Series
extended by `pd.concat([trafo_map, missing])` with `missing` the identity on
absent buses. -/
def lookupD (t : List (String × String)) (b : String) : String :=
  match t.lookup b with
  | some v => v
  | none => b

/-- One hop through the deduplicated transformer Series (identity off its
index). -/
def trafoStep (trs : List (String × String)) (b : String) : String :=
  lookupD (dedupKeysFirst trs) b

/-- The transformer chain map built by `simplify_network_to_380`: a single
simultaneous rewriting pass over the deduplicated Series
(`trafo_map.loc[several_trafo_b].map(trafo_map)`), then extension by the
identity on the remaining buses. -/
def trafo_map (trs : List (String × String)) (b : String) : String :=
  let t := dedupKeysFirst trs
  let t2 := t.map
    (fun p => (p.1, if (t.lookup p.2).isSome then lookupD t p.2 else p.2))
  lookupD t2 b

/-- The values of the full trafo-map Series (rewritten entries plus the
identity rows for missing buses): the buses that survive
`n.mremove("Bus", n.buses.index.difference(trafo_map))`. -/
def trafo_map_values (n : Network) : List String :=
  let keys := (dedupKeysFirst n.transformers).map Prod.fst
  let missing := (n.buses.map Bus.name).filter (fun b => b ∉ keys)
  (keys ++ missing).map (trafo_map n.transformers)

/-- `linetype_380, = n.lines.loc[n.lines.v_nom == 380., 'type'].unique()`:
the single-element unpacking succeeds only when exactly one distinct line
type exists at the 380 kV reference voltage. -/
def linetype380 (n : Network) : Option String :=
  match ((n.lines.filter (fun l => l.v_nom == 380)).map (fun l => l.typ)).dedup
      with
  | [t] => some t
  | _ => none

/-- `simplify_network.simplify_network_to_380`: lift every bus and line to
380 kV (scaling `num_parallel` by the squared voltage ratio), replace
transformers by the one-pass `trafo_map`, redirect every component's bus
columns through it, drop all transformers and the buses outside the map's
values.  The python unpacking of `linetype_380` raises `ValueError` when no
(or no unique) 380 kV line exists; this is the `Except.error` branch. -/
def simplify_network_to_380 (n : Network) :
    Except String (Network × (String → String)) :=
  match linetype380 n with
  | none =>
      .error "no unique line type at v_nom == 380 to source linetype_380 from"
  | some t380 =>
    let tm := trafo_map n.transformers
    let keep := trafo_map_values n
    let lines1 := n.lines.map (fun l =>
      if l.v_nom == 380 then l
      else { l with
        num_parallel := l.num_parallel * (l.v_nom / 380) ^ 2,
        v_nom := 380, typ := t380 })
    .ok ({ buses := (n.buses.map (fun b => { b with v_nom := 380 })).filter
             (fun b => keep.contains b.name),
           lines := lines1.map (fun l =>
             { l with bus0 := tm l.bus0, bus1 := tm l.bus1 }),
           links := n.links.map (fun l =>
             { l with bus0 := tm l.bus0, bus1 := tm l.bus1 }),
           transformers := [],
           generators := n.generators.map (fun g => { g with bus := tm g.bus }),
           loads := n.loads.map (fun l => { l with bus := tm l.bus }) }, tm)

/-! ## Partitioning Engine dispatch
(`cluster_network.busmap_for_n_clusters` / `busmap_for_country`)

`busmap_for_country` short-circuits single-bus partitions to the trivial
cluster before consulting the algorithm name; otherwise it dispatches on
the name and raises `ValueError` for unsupported names.  The clustering
routines themselves (`busmap_by_kmeans`, `busmap_by_hac`,
`busmap_by_greedy_modularity`) are external pypsa collaborators, passed
here as function parameters returning per-bus cluster labels. -/

/-- The per-partition function applied by `n.buses.groupby(...).apply`;
`pfx` is the partition-key prefix namespacing the cluster labels. -/
def busmap_for_country (kmeansF hacF modF : List String → List String)
    (algorithm : String) (pfx : String) (buses : List String) :
    Except String (List (String × String)) :=
  match buses with
  | [b] => .ok [(b, pfx ++ "0")]
  | _ =>
    if algorithm = "kmeans" then
      .ok (buses.zip ((kmeansF buses).map (fun s => pfx ++ s)))
    else if algorithm = "hac" then
      .ok (buses.zip ((hacF buses).map (fun s => pfx ++ s)))
    else if algorithm = "modularity" then
      .ok (buses.zip ((modF buses).map (fun s => pfx ++ s)))
    else
      .error ("algorithm must be one of kmeans, hac, or modularity. Is "
        ++ algorithm ++ ".")

/-- `busmap_for_n_clusters` applied over the groupby partitions, collecting
the per-partition busmaps; the first `ValueError` aborts the run. -/
def busmap_for_n_clusters (kmeansF hacF modF : List String → List String)
    (algorithm : String) (partitions : List (String × List String)) :
    Except String (List (String × String)) :=
  match partitions with
  | [] => .ok []
  | p :: ps =>
    match busmap_for_country kmeansF hacF modF algorithm p.1 p.2 with
    | .error e => .error e
    | .ok m =>
      match busmap_for_n_clusters kmeansF hacF modF algorithm ps with
      | .error e => .error e
      | .ok ms => .ok (m ++ ms)

/-! ## Connection-cost adjustment
(`simplify_network._adjust_capital_costs_using_connection_costs`)

For every technology column of `connection_costs_to_bus` the code selects
the generators of that carrier, maps their bus through the column, keeps
the strictly positive entries (`.loc[lambda s: s>0]`, which also drops
NaN from buses absent from the column) and adds them to `capital_cost`.
The row updates of the different technology columns are independent, so
the whole adjustment factors through a per-generator function. -/

/-- Total strictly-positive connection cost allocated to one generator
across all technology columns (`tech` paired with its bus → cost column). -/
def posConnCost (table : List (String × (String → Option ℚ)))
    (g : Generator) : ℚ :=
  (table.map (fun tc =>
    if g.carrier = tc.1 then
      match tc.2 g.bus with
      | some c => if 0 < c then c else 0
      | none => 0
    else 0)).sum

/-- The update `_adjust_capital_costs_using_connection_costs` performs on
one generator row. -/
def adjust_generator (table : List (String × (String → Option ℚ)))
    (g : Generator) : Generator :=
  { g with capital_cost := g.capital_cost + posConnCost table g }

/-- `_adjust_capital_costs_using_connection_costs` on the generator table. -/
def adjust_capital_costs (table : List (String × (String → Option ℚ)))
    (gens : List Generator) : List Generator :=
  gens.map (adjust_generator table)

/-- Connection-cost table used in witnesses: one `offwind-ac` column with
cost 5 at bus `B1` only. -/
def sampleCostTable : List (String × (String → Option ℚ)) :=
  [("offwind-ac", fun b => if b = "B1" then some 5 else none)]

/-- Generator used in witnesses. -/
def sampleGenerator : Generator :=
  { name := "G1", bus := "B1", carrier := "offwind-ac", p_nom := 3,
    capital_cost := 100 }

/-! ## TSO inner join (`cluster_network.distribute_clusters`, TSO branch)

```
tso_busmap = pd.read_csv(filepaths.input.tso_busmap).set_index('Bus').squeeze()
n.buses = n.buses.merge(tso_busmap, left_index=True, right_index=True)
```
`DataFrame.merge` defaults to an inner join, so bus rows absent from the
TSO busmap are silently dropped from the bus table.  Bus rows are modelled
as `(index, country)` pairs, the TSO busmap as an association list. -/

/-- The inner join of the bus table with the bus → TSO mapping. -/
def merge_tso (buses : List (String × String))
    (tso : List (String × String)) : List (String × String × String) :=
  buses.filterMap (fun p => (tso.lookup p.1).map (fun t => (p.1, p.2, t)))

/-! ## Aggregator
(`simplify_network._aggregate_and_move_components`,
`cluster_network.clustering_for_n_clusters`)

`_aggregate_and_move_components` aggregates generators and the one-port
components through the busmap and then deletes the buses outside the
busmap's values together with every branch touching a deleted bus. -/

/-- Apply a busmap Series to one bus label.  All call sites pass busmaps
total on the network's buses; pandas would yield NaN on a missing key. -/
def applyBm (bm : List (String × String)) (b : String) : String :=
  lookupD bm b

/-- Modelled from the spec: `aggregategenerators` is imported from the
external `pypsa.networkclustering` module, which is not part of this
repository.  Per spec §4.6 generators are re-homed to their bus's mapped
image and merged within each (cluster, carrier) group, with capacity
summed and cost capacity-weighted-averaged.  (pandas sorts the group keys;
`List.dedup` order differs, which no claim observes.) -/
def aggregate_generators (bm : List (String × String))
    (gens : List Generator) : List Generator :=
  ((gens.map (fun g => (applyBm bm g.bus, g.carrier))).dedup).map (fun k =>
    let grp := gens.filter (fun g => (applyBm bm g.bus, g.carrier) = k)
    let cap := (grp.map Generator.p_nom).sum
    { name := k.1 ++ " " ++ k.2, bus := k.1, carrier := k.2,
      p_nom := cap,
      capital_cost := if cap = 0 then 0
        else (grp.map (fun g => g.p_nom * g.capital_cost)).sum / cap })

/-- Modelled from the spec: `aggregateoneport` for the `Load` component,
from the external `pypsa.networkclustering` module.  Loads are re-homed
through the busmap and their demand summed per cluster bus (spec §4.6). -/
def aggregate_loads (bm : List (String × String)) (loads : List Load) :
    List Load :=
  ((loads.map (fun l => applyBm bm l.bus)).dedup).map (fun k =>
    { name := k, bus := k,
      p_set := ((loads.filter (fun l => applyBm bm l.bus = k)).map
        Load.p_set).sum })

/-- `_aggregate_and_move_components` (without the connection-cost
adjustment, which is `adjust_capital_costs` above): aggregate generators
and loads, then `n.mremove("Bus", n.buses.index.difference(busmap))` and
drop every branch with a deleted endpoint. -/
def aggregate_and_move_components (n : Network)
    (bm : List (String × String)) : Network :=
  let keep := bm.map Prod.snd
  let deleted := (n.buses.map Bus.name).filter (fun x => x ∉ keep)
  { buses := n.buses.filter (fun b => b.name ∈ keep),
    lines := n.lines.filter
      (fun l => l.bus0 ∉ deleted ∧ l.bus1 ∉ deleted),
    links := n.links.filter
      (fun l => l.bus0 ∉ deleted ∧ l.bus1 ∉ deleted),
    transformers := n.transformers,
    generators := aggregate_generators bm n.generators,
    loads := aggregate_loads bm n.loads }

/-- Total generator capacity of the network. -/
def totalGenCapacity (n : Network) : ℚ :=
  (n.generators.map Generator.p_nom).sum

/-- Total (mean) load of the network. -/
def totalLoad (n : Network) : ℚ :=
  (n.loads.map Load.p_set).sum

/-- The identity busmap `n.buses.index.to_series()`. -/
def identityBusmap (n : Network) : List (String × String) :=
  n.buses.map (fun b => (b.name, b.name))

/-! ## Link Folding (`simplify_network.simplify_links`)

`simplify_links` labels the connected components of the link-only
adjacency, walks every component with more than two buses from its
supernodes (`split_links`), reassigns interior chain buses to the nearest
boundary endpoint, replaces each chain by one synthesized link, and
finally aggregates and moves components through the busmap.

The connection-cost side channel (`_compute_connection_costs_to_bus`,
Dijkstra over cost-weighted adjacency) only feeds the generator
capital-cost adjustment, verified separately as `adjust_capital_costs`,
and is not re-modelled here.

At this pipeline stage transformers have already been removed by
`simplify_network_to_380`, so `G = n.graph()` holds lines and links. -/

/-- First-occurrence deduplication of a string list. -/
def dedupStrGo : List String → List String → List String
  | [], _ => []
  | s :: ss, seen =>
    if s ∈ seen then dedupStrGo ss seen else s :: dedupStrGo ss (s :: seen)

/-- First-occurrence deduplication of a string list. -/
def dedupStr (l : List String) : List String := dedupStrGo l []

/-- The edges of `G = n.graph()` as `(bus0, bus1, (component, name))`. -/
def graph_edges (n : Network) : List (String × String × String × String) :=
  n.lines.map (fun l => (l.bus0, l.bus1, "Line", l.name))
    ++ n.links.map (fun l => (l.bus0, l.bus1, "Link", l.name))

/-- `G.adj[b]`: the neighbors of `b`, each with the parallel branches
(`(component, name)` keys) joining them, grouped by neighbor in
first-appearance order. -/
def graph_adj (n : Network) (b : String) :
    List (String × List (String × String)) :=
  let inc := (graph_edges n).filterMap (fun e =>
    if e.1 = b then some (e.2.1, (e.2.2.1, e.2.2.2))
    else if e.2.1 = b then some (e.1, (e.2.2.1, e.2.2.2))
    else none)
  (dedupStr (inc.map Prod.fst)).map
    (fun m => (m, (inc.filter (fun q => q.1 = m)).map Prod.snd))

/-- The edges of the adjacency passed to `connected_components`.  scipy
treats explicitly stored zeros of a sparse matrix as (zero-weight) edges,
so the `(n.links.carrier == 'DC').astype(float)` weights do not remove
non-DC links from the sparsity structure: every link row contributes an
edge to the labelling. -/
def link_edges (n : Network) : List (String × String) :=
  n.links.map (fun l => (l.bus0, l.bus1))

/-- One breadth-first expansion step of the reachable set. -/
def expand_once (edges : List (String × String)) (s : List String) :
    List String :=
  dedupStr (s ++ edges.foldr (fun e acc =>
    if e.1 ∈ s then e.2 :: acc
    else if e.2 ∈ s then e.1 :: acc
    else acc) [])

/-- Iterated expansion to the connected closure.  The fuel list only
bounds the iteration count (one fresh bus is absorbed per step, so the
bus list itself suffices); recursing on a list keeps the equations
applicable by `simp` on concrete networks. -/
def close_over (edges : List (String × String)) :
    List Bus → List String → List String
  | [], s => s
  | _ :: fuel, s => close_over edges fuel (expand_once edges s)

/-- The link-graph connected component containing `b`
(`labels.index[labels == lbl]`), listed in bus-index order. -/
def component_of (n : Network) (b : String) : List String :=
  let cl := close_over (link_edges n) n.buses [b]
  (n.buses.map Bus.name).filter (fun x => x ∈ cl)

/-- The components with more than two buses
(`labels.value_counts().loc[lambda s: s > 2].index`), each listed once.
(`value_counts` orders by descending count, which no claim observes.) -/
def big_link_components (n : Network) : List (List String) :=
  (((n.buses.map Bus.name).map (component_of n)).dedup).filter
    (fun c => 2 < c.length)

/-- The `while m not in (supernodes | seen)` walk of `split_links`,
extending a chain from supernode `u` until another supernode, a seen bus,
or a dead end (stub); returns `(buses, links, m, seen)`. -/
def chain_walk (adj : String → List (String × List (String × String)))
    (supernodes : List String) (u : String) :
    List Bus → List String → List String →
    List (List (String × String)) → String →
    List String × List (List (String × String)) × String × List String
  | [], seen, buses, links, m => (buses, links, m, seen)
  | _ :: fuel, seen, buses, links, m =>
    if m ∈ supernodes ∨ m ∈ seen then (buses, links, m, seen)
    else
      let seen2 := seen ++ [m]
      match (adj m).find? (fun p => p.1 ∉ seen2 ∧ p.1 ≠ u) with
      | none => (buses, links, m, seen2)
      | some p => chain_walk adj supernodes u fuel seen2 (buses ++ [p.1])
          (links ++ [p.2]) p.1

/-- One supernode's pass of the `split_links` generator
(`for m, ls in G.adj[u].items(): ...` followed by `seen.add(u)`). -/
def chains_from (adj : String → List (String × List (String × String)))
    (nodes supernodes : List String) (fuel : List Bus) (u : String)
    (seen0 : List String) :
    List ((String × String) × List String × List (List (String × String)))
      × List String :=
  let res := (adj u).foldl (fun acc p =>
    if p.1 ∉ nodes ∨ p.1 ∈ acc.2 then acc
    else
      let r := chain_walk adj supernodes u fuel acc.2 [u, p.1] [p.2] p.1
      if r.2.2.1 ≠ u then
        (acc.1 ++ [((u, r.2.2.1), r.1, r.2.1)], r.2.2.2)
      else (acc.1, r.2.2.2)) ([], seen0)
  (res.1, res.2 ++ [u])

/-- `split_links(nodes)`: the boundary-to-boundary chains of one
component.  python iterates the `supernodes` set in unspecified order;
determinized here to the bus-index order of `nodes`. -/
def split_links (adj : String → List (String × List (String × String)))
    (nodes : List String) (fuel : List Bus) :
    List ((String × String) × List String × List (List (String × String)))
    :=
  let supernodes := nodes.filter (fun m =>
    2 < (adj m).length ∨ (adj m).any (fun p => p.1 ∉ nodes))
  (supernodes.foldl (fun acc u =>
    let r := chains_from adj nodes supernodes fuel u acc.2
    (acc.1 ++ r.1, r.2)) ([], [])).1

/-- Squared Euclidean distance on bus coordinates.  `argmin` over it
coincides with `argmin` over the Euclidean distances computed by
`scipy.spatial.distance_matrix`, since the square root is monotone. -/
def dist2 (p q : ℚ × ℚ) : ℚ := (p.1 - q.1) ^ 2 + (p.2 - q.2) ^ 2

/-- The `(x, y)` coordinates of a bus. -/
def bus_pos (n : Network) (b : String) : ℚ × ℚ :=
  match n.buses.find? (fun bu => bu.name == b) with
  | some bu => (bu.x, bu.y)
  | none => (0, 0)

/-- `m.argmin(axis=0)` for one interior bus: the nearer of the two
boundary endpoints, ties resolved to the first row `b[0]` as numpy's
argmin takes the first minimum. -/
def nearest_endpoint (n : Network) (b0 b1 q : String) : String :=
  if dist2 (bus_pos n b0) (bus_pos n q) ≤ dist2 (bus_pos n b1) (bus_pos n q)
  then b0 else b1

/-- The tail of `busmap.loc[buses] = b[np.r_[0, m.argmin(axis=0), 1]]`:
interior buses to the nearest endpoint, the last bus to `b[1]`. -/
def interior_assignment (n : Network) (b0 bN : String) :
    List String → List (String × String)
  | [] => []
  | [q] => [(q, bN)]
  | q :: q2 :: rest =>
    (q, nearest_endpoint n b0 bN q)
      :: interior_assignment n b0 bN (q2 :: rest)

/-- `busmap.loc[buses] = b[np.r_[0, m.argmin(axis=0), 1]]`: the first bus
to `b[0]`, interior buses to their nearest endpoint, the last to `b[1]`. -/
def chain_assignment (n : Network) (b0 bN : String) (buses : List String) :
    List (String × String) :=
  match buses with
  | [] => []
  | u :: rest => (u, b0) :: interior_assignment n b0 bN rest

/-- Overwrite busmap entries at the given keys
(`busmap.loc[buses] = ...`). -/
def busmap_set (bm upd : List (String × String)) :
    List (String × String) :=
  bm.map (fun p => match upd.lookup p.1 with
    | some v => (p.1, v)
    | none => p)

/-- `n.links.loc[name]`. -/
def link_by_name (links : List Link) (nm : String) : Link :=
  match links.find? (fun l => l.name == nm) with
  | some l => l
  | none => { name := nm, bus0 := "", bus1 := "", carrier := "",
              length := 0, p_nom := 0, underwater_fraction := 0 }

/-- `Series.mean()`. -/
def list_mean (l : List ℚ) : ℚ := l.sum / (l.length : ℚ)

/-- python `min(...)` over a nonempty generator. -/
def list_min : List ℚ → ℚ
  | [] => 0
  | x :: xs => xs.foldl min x

/-- `lengths.idxmax()`: the name of the first maximal entry. -/
def idx_max : List (String × ℚ) → String
  | [] => ""
  | p :: ps => (ps.foldl (fun acc q => if acc.2 < q.2 then q else acc) p).1

/-- The body of the `for b, buses, links in split_links(...)` loop on the
state `(network, busmap)`: skip chains of at most two buses, otherwise
reassign the chain's buses, remove the chain's links
(`n.mremove("Link", all_links)`) and append the synthesized equivalent
link (`n.links.loc[name] = pd.Series(params)`).  Coordinates are read from
the pre-loop network `n`; link attributes from the current table. -/
def process_chain (n : Network) (st : Network × List (String × String))
    (ch : (String × String) × List String × List (List (String × String)))
    : Network × List (String × String) :=
  if ch.2.1.length ≤ 2 then st
  else
    let b0 := ch.1.1
    let bN := ch.1.2
    let links := ch.2.2
    let bm2 := busmap_set st.2 (chain_assignment n b0 bN ch.2.1)
    let all_links := links.flatten.map Prod.snd
    let lens := all_links.map
      (fun x => (x, (link_by_name st.1.links x).length))
    let nm := idx_max lens ++ "+" ++ toString (links.length - 1)
    let total := (lens.map Prod.snd).sum
    let newLink : Link :=
      { name := nm, bus0 := b0, bus1 := bN, carrier := "DC",
        length := (links.map (fun g =>
          list_mean (g.map
            (fun pr => (link_by_name st.1.links pr.2).length)))).sum,
        p_nom := list_min (links.map (fun g =>
          (g.map (fun pr => (link_by_name st.1.links pr.2).p_nom)).sum)),
        underwater_fraction := (all_links.map (fun x =>
          (link_by_name st.1.links x).length / total
            * (link_by_name st.1.links x).underwater_fraction)).sum }
    ({ st.1 with
        links := st.1.links.filter (fun l => l.name ∉ all_links)
          ++ [newLink] }, bm2)

/-- `simplify_links`: empty link table short-circuits to the identity
busmap; otherwise fold the chain synthesis over the big components and
finish with `_aggregate_and_move_components`. -/
def simplify_links (n : Network) : Network × List (String × String) :=
  if n.links.isEmpty then (n, identityBusmap n)
  else
    let adj := graph_adj n
    let fuel := n.buses
    let res := (big_link_components n).foldl (fun st nodes =>
      (split_links adj nodes fuel).foldl (process_chain n) st)
      (n, identityBusmap n)
    (aggregate_and_move_components res.1 res.2, res.2)

/-- The synthetic DC chain of C3: buses `A – B – C – D` joined by three DC
links of equal length and capacity, with AC lines attaching `A` and `D` to
outside buses `E` and `F` (making `A` and `D` boundary supernodes). -/
def chain_network (len cap : ℚ) : Network :=
  { buses := [{ name := "A", x := 0, y := 0, v_nom := 380 },
              { name := "B", x := 1, y := 0, v_nom := 380 },
              { name := "C", x := 2, y := 0, v_nom := 380 },
              { name := "D", x := 3, y := 0, v_nom := 380 },
              { name := "E", x := -1, y := 0, v_nom := 380 },
              { name := "F", x := 4, y := 0, v_nom := 380 }],
    lines := [{ name := "AC1", bus0 := "E", bus1 := "A", v_nom := 380,
                typ := "t380", num_parallel := 1 },
              { name := "AC2", bus0 := "D", bus1 := "F", v_nom := 380,
                typ := "t380", num_parallel := 1 }],
    links := [{ name := "LAB", bus0 := "A", bus1 := "B", carrier := "DC",
                length := len, p_nom := cap, underwater_fraction := 0 },
              { name := "LBC", bus0 := "B", bus1 := "C", carrier := "DC",
                length := len, p_nom := cap, underwater_fraction := 0 },
              { name := "LCD", bus0 := "C", bus1 := "D", carrier := "DC",
                length := len, p_nom := cap, underwater_fraction := 0 }],
    transformers := [], generators := [], loads := [] }

/-- Witness network for C7: a single 220 kV line, no 380 kV line. -/
def sampleNet220 : Network :=
  { buses := [{ name := "A", x := 0, y := 0, v_nom := 220 },
              { name := "B", x := 1, y := 0, v_nom := 220 }],
    lines := [{ name := "L1", bus0 := "A", bus1 := "B", v_nom := 220,
                typ := "Al/St 240/40 2-bundle 220.0", num_parallel := 1 }],
    links := [], transformers := [], generators := [], loads := [] }

/-- Witness bus table for C10. -/
def sampleBuses : List (String × String) := [("B1", "DE"), ("B2", "DE")]

/-- Witness TSO busmap for C10: `B2` is absent. -/
def sampleTso : List (String × String) := [("B1", "TenneT")]

end PyPSA

namespace PyPSA

theorem roundHalfToEven_intCast (z : ℤ) : roundHalfToEven (z : ℚ) = z := by
  unfold roundHalfToEven
  have h : ⌊(z : ℚ)⌋ = z := Int.floor_intCast z
  rw [h]
  norm_num

theorem roundHalfToEven_three_halves : roundHalfToEven (3 / 2 : ℚ) = 2 := by
  unfold roundHalfToEven
  have h : ⌊(3 / 2 : ℚ)⌋ = 1 := by
    rw [Int.floor_eq_iff]
    norm_num
  rw [h]
  rw [if_neg (by norm_num), if_neg (by norm_num), if_neg (by norm_num)]
  norm_num

/-- C1: the Cluster-Count Allocator claim fails under the continuous
fallback solver.  At the valid input `K = 3`, `N = (2, 2)`, `L = (1/2, 1/2)`
the point `(3/2, 3/2)` is an optimal solution of the continuous relaxation
(objective `0`), and `distribute_clusters` rounds it to `(2, 2)`, whose sum
is `4 ≠ 3`. -/
theorem distribute_clusters_fallback_cex :
    optimalAlloc 3 [2, 2] [1 / 2, 1 / 2] [3 / 2, 3 / 2] ∧
    distribute_clusters [3 / 2, 3 / 2] = [2, 2] ∧
    (distribute_clusters [3 / 2, 3 / 2]).sum ≠ 3 := by
  have hdc : distribute_clusters [3 / 2, 3 / 2] = [2, 2] := by
    unfold distribute_clusters
    simp [roundHalfToEven_three_halves]
  refine ⟨⟨?_, ?_⟩, hdc, ?_⟩
  · unfold feasibleAlloc
    refine ⟨rfl, by norm_num, ?_⟩
    intro p hp
    simp only [List.zip, List.zipWith, List.mem_cons, List.not_mem_nil, or_false]
      at hp
    rcases hp with h | h <;> rw [h] <;> norm_num
  · intro y _
    have h0 : allocObjective 3 [1 / 2, 1 / 2] [3 / 2, 3 / 2] = 0 := by
      unfold allocObjective
      simp only [List.zip, List.zipWith, List.map, List.sum_cons, List.sum_nil]
      norm_num
    rw [h0]
    apply List.sum_nonneg
    intro a ha
    obtain ⟨p, _, rfl⟩ := List.mem_map.mp ha
    positivity
  · rw [hdc]
    norm_num

/-- C1 (amended): whenever the solver values are integral — in particular
whenever the configured solver supports quadratic objectives and returns an
integer-feasible optimum — the counts returned by `distribute_clusters`
sum exactly to `K` and satisfy `1 ≤ n_p ≤ N_p` for every partition. -/
theorem distribute_clusters_integral_ok (K : ℤ) (N : List ℤ) (z : List ℤ)
    (h : feasibleAlloc K N (z.map (Int.cast : ℤ → ℚ))) :
    (distribute_clusters (z.map (Int.cast : ℤ → ℚ))).sum = K ∧
    ∀ p ∈ (distribute_clusters (z.map (Int.cast : ℤ → ℚ))).zip N,
      1 ≤ p.1 ∧ p.1 ≤ p.2 := by
  obtain ⟨hlen, hsum, hbnd⟩ := h
  have hid : distribute_clusters (z.map (Int.cast : ℤ → ℚ)) = z := by
    unfold distribute_clusters
    rw [List.map_map]
    have hco : (roundHalfToEven ∘ (Int.cast : ℤ → ℚ)) = id := by
      funext i
      simp [Function.comp, roundHalfToEven_intCast]
    rw [hco, List.map_id]
  rw [hid]
  constructor
  · have hzk : ((z.sum : ℤ) : ℚ) = (K : ℚ) :=
      (map_list_sum (Int.castRingHom ℚ) z).trans hsum
    exact_mod_cast hzk
  · intro p hp
    have hp' : ((p.1 : ℚ), p.2) ∈ (z.map (Int.cast : ℤ → ℚ)).zip N := by
      rw [List.zip_map_left]
      exact List.mem_map.mpr ⟨p, hp, rfl⟩
    have h21 : (1 : ℚ) ≤ (p.1 : ℚ) := (hbnd _ hp').1
    have h22 : (p.1 : ℚ) ≤ (p.2 : ℚ) := (hbnd _ hp').2
    exact ⟨by exact_mod_cast h21, by exact_mod_cast h22⟩

/-- Witness for C1 (amended) at `K = 3`, `N = [2, 2]`, `z = [1, 2]`. -/
theorem distribute_clusters_integral_ok_witness :
    (distribute_clusters (([1, 2] : List ℤ).map (Int.cast : ℤ → ℚ))).sum = 3 ∧
    ∀ p ∈ (distribute_clusters
        (([1, 2] : List ℤ).map (Int.cast : ℤ → ℚ))).zip ([2, 2] : List ℤ),
      1 ≤ p.1 ∧ p.1 ≤ p.2 :=
  distribute_clusters_integral_ok 3 [2, 2] [1, 2] (by
    unfold feasibleAlloc
    refine ⟨rfl, by norm_num, ?_⟩
    intro p hp
    simp only [List.map, List.zip, List.zipWith, List.mem_cons,
      List.not_mem_nil, or_false] at hp
    rcases hp with h | h <;> rw [h] <;> norm_num)

theorem foldl_seriesMap_apply (bs : List Busmap) (x : Busmap) (b : String) :
    (bs.foldl seriesMap x) b = bs.foldl (fun ob f => ob.bind f) (x b) := by
  induction bs generalizing x with
  | nil => rfl
  | cons f bs ih => simp only [List.foldl]; rw [ih]; rfl

theorem seriesMap_last (bs : List Busmap) (g : Busmap) :
    bs.getLast? = some g →
    ∀ (x : Busmap) (b v : String),
      (bs.foldl seriesMap x) b = some v → ∃ b', g b' = some v := by
  induction bs with
  | nil => intro h; simp at h
  | cons f bs ih =>
    intro hlast x b v h
    cases bs with
    | nil =>
      have hfg : f = g := by
        simpa using hlast
      subst hfg
      simp only [List.foldl] at h
      obtain ⟨b', _, hb⟩ := Option.bind_eq_some.mp h
      exact ⟨b', hb⟩
    | cons f2 bs2 =>
      have hlast' : (f2 :: bs2).getLast? = some g := by
        rwa [List.getLast?_cons_cons] at hlast
      exact ih hlast' (seriesMap x f) b v h

/-- C5: sequentially mapping every bus through a chain of busmaps equals
applying the single composed mapping from
`reduce(lambda x, y: x.map(y), busmaps[1:], busmaps[0])` in one pass;
`Series.map` composition is associative; and, provided the image of the last
busmap lies among the buses of the final graph, every bus that the composed
map is defined on maps to a bus of the final graph. -/
theorem busmap_composition_ok :
    (∀ (bs : List Busmap) (b : String),
        composeBusmaps bs b = applySequentially bs b) ∧
    (∀ x y z : Busmap,
        seriesMap (seriesMap x y) z = seriesMap x (seriesMap y z)) ∧
    (∀ (bs : List Busmap) (g : Busmap) (finalBuses : List String)
        (b v : String),
        bs.getLast? = some g →
        (∀ b' v', g b' = some v' → v' ∈ finalBuses) →
        composeBusmaps bs b = some v → v ∈ finalBuses) := by
  refine ⟨?_, ?_, ?_⟩
  · intro bs b
    cases bs with
    | nil => rfl
    | cons x xs => exact foldl_seriesMap_apply xs x b
  · intro x y z
    funext b
    simp [seriesMap, Option.bind_assoc]
  · intro bs g finalBuses b v hlast hg h
    cases bs with
    | nil => simp at hlast
    | cons x xs =>
      cases xs with
      | nil =>
        have hxg : x = g := by simpa using hlast
        subst hxg
        exact hg b v h
      | cons f2 xs2 =>
        have hlast' : (f2 :: xs2).getLast? = some g := by
          rwa [List.getLast?_cons_cons] at hlast
        obtain ⟨b', hb⟩ := seriesMap_last (f2 :: xs2) g hlast' x b v h
        exact hg b' v hb

/-- Witness for C5 at the two-busmap chain `a ↦ m`, `m ↦ X` with final bus
set `[X]`. -/
theorem busmap_composition_ok_witness :
    composeBusmaps [busmapAM, busmapMX] "a" = applySequentially
      [busmapAM, busmapMX] "a" ∧
    ("X" : String) ∈ ["X"] := by
  refine ⟨busmap_composition_ok.1 [busmapAM, busmapMX] "a", ?_⟩
  refine busmap_composition_ok.2.2 [busmapAM, busmapMX] busmapMX ["X"] "a" "X"
    rfl ?_ rfl
  intro b' v' h
  unfold busmapMX at h
  by_cases hb : b' = "m"
  · rw [if_pos hb] at h
    simp only [Option.some.injEq] at h
    simp [← h]
  · rw [if_neg hb] at h
    simp at h

theorem lookup_dedupKeysGo (trs : List (String × String)) (seen : List String)
    (b : String) (hb : b ∉ seen) :
    (dedupKeysGo trs seen).lookup b = trs.lookup b := by
  induction trs generalizing seen with
  | nil => rfl
  | cons p ps ih =>
    simp only [dedupKeysGo]
    by_cases hp : p.1 ∈ seen
    · rw [if_pos hp, ih seen hb]
      have hbp : (b == p.1) = false := by
        simp only [beq_eq_false_iff_ne, ne_eq]
        intro he
        exact hb (he ▸ hp)
      simp [List.lookup, hbp]
    · rw [if_neg hp]
      by_cases hbp : b = p.1
      · simp [List.lookup, hbp]
      · have hb' : b ∉ p.1 :: seen := by
          simp only [List.mem_cons, not_or]
          exact ⟨hbp, hb⟩
        have hbeq : (b == p.1) = false := by
          simpa [beq_eq_false_iff_ne, ne_eq] using hbp
        simp [List.lookup, hbeq, ih (p.1 :: seen) hb']

theorem lookup_dedupKeysFirst (trs : List (String × String)) (b : String) :
    (dedupKeysFirst trs).lookup b = trs.lookup b :=
  lookup_dedupKeysGo trs [] b (by simp)

theorem lookup_map_values (t : List (String × String)) (f : String → String)
    (b : String) :
    (t.map (fun p => (p.1, f p.2))).lookup b = (t.lookup b).map f := by
  induction t with
  | nil => rfl
  | cons p ps ih =>
    by_cases hbp : b = p.1
    · simp [List.lookup, hbp]
    · have hbeq : (b == p.1) = false := by
        simpa [beq_eq_false_iff_ne, ne_eq] using hbp
      simp [List.lookup, hbeq, ih]

/-- C4 (counterexample): for the three-transformer chain
`b0 → b1 → b2 → b3` the map resolves `b0` only to `b2`, not to the ultimate
target bus `b3`: the single rewriting pass of `simplify_network_to_380` does
not resolve chains of length three. -/
theorem trafo_map_chain3_cex :
    trafo_map [("b0", "b1"), ("b1", "b2"), ("b2", "b3")] "b0" = "b2" ∧
    ("b2" : String) ≠ "b3" := by
  constructor
  · rfl
  · decide

/-- C4 (amended): the transformer map of `simplify_network_to_380` applies
exactly one simultaneous rewriting pass: every bus is mapped through at most
two hops of the (first-kept-on-duplicates) transformer relation, so chains
of up to two transformers resolve to their ultimate target bus, and every
bus not appearing as a transformer low-voltage side maps to itself. -/
theorem if_isSome_lookupD (t : List (String × String)) (v : String) :
    (if (t.lookup v).isSome = true then lookupD t v else v) = lookupD t v := by
  cases h : t.lookup v with
  | none => simp [h, lookupD]
  | some w => simp [h, lookupD]

theorem lookupD_eq_some (t : List (String × String)) (b v : String)
    (h : t.lookup b = some v) : lookupD t b = v := by
  unfold lookupD
  rw [h]

theorem lookupD_eq_none (t : List (String × String)) (b : String)
    (h : t.lookup b = none) : lookupD t b = b := by
  unfold lookupD
  rw [h]

theorem lookupD_map_lookupD (t : List (String × String)) (b : String) :
    lookupD (t.map (fun p => (p.1, lookupD t p.2))) b
      = lookupD t (lookupD t b) := by
  cases h : t.lookup b with
  | none =>
    have h2 : (t.map (fun p => (p.1, lookupD t p.2))).lookup b = none := by
      rw [lookup_map_values, h]
      rfl
    rw [lookupD_eq_none _ _ h2, lookupD_eq_none _ _ h, lookupD_eq_none _ _ h]
  | some v =>
    have h2 : (t.map (fun p => (p.1, lookupD t p.2))).lookup b
        = some (lookupD t v) := by
      rw [lookup_map_values, h]
      rfl
    rw [lookupD_eq_some _ _ _ h2, lookupD_eq_some _ _ _ h]

theorem trafo_map_one_pass (trs : List (String × String)) (b : String) :
    trafo_map trs b = trafoStep trs (trafoStep trs b) ∧
    (trs.lookup b = none → trafo_map trs b = b) := by
  have hmain : trafo_map trs b = trafoStep trs (trafoStep trs b) := by
    unfold trafo_map trafoStep
    simp only [if_isSome_lookupD]
    exact lookupD_map_lookupD (dedupKeysFirst trs) b
  refine ⟨hmain, fun hnone => ?_⟩
  have hstep : trafoStep trs b = b := by
    unfold trafoStep lookupD
    rw [lookup_dedupKeysFirst, hnone]
  rw [hmain, hstep, hstep]

/-- Witness for C4 (amended): a bus absent from the transformer index maps
to itself. -/
theorem trafo_map_one_pass_witness :
    trafo_map [("b0", "b1")] "z" = "z" :=
  (trafo_map_one_pass [("b0", "b1")] "z").2 rfl

/-- C7: when the input network contains no line at the 380 kV reference
voltage, `simplify_network_to_380` fails (the single-element unpacking of
`linetype_380` raises) instead of proceeding. -/
theorem simplify_to_380_no_reference_line (n : Network)
    (h : ∀ l ∈ n.lines, l.v_nom ≠ 380) :
    simplify_network_to_380 n =
      .error "no unique line type at v_nom == 380 to source linetype_380 from"
      := by
  have hfil : n.lines.filter (fun l => l.v_nom == 380) = [] := by
    rw [List.filter_eq_nil_iff]
    intro l hl
    simp only [beq_iff_eq]
    exact h l hl
  have hl : linetype380 n = none := by
    unfold linetype380
    rw [hfil]
    rfl
  unfold simplify_network_to_380
  rw [hl]

/-- Witness for C7 at a network whose only line is at 220 kV. -/
theorem simplify_to_380_no_reference_line_witness :
    simplify_network_to_380 sampleNet220 =
      .error "no unique line type at v_nom == 380 to source linetype_380 from"
      :=
  simplify_to_380_no_reference_line sampleNet220 (by
    intro l hl
    simp only [sampleNet220, List.mem_singleton] at hl
    subst hl
    norm_num)

theorem busmap_for_country_error (kmeansF hacF modF : List String → List String)
    (algorithm pfx : String) (buses : List String)
    (halg : algorithm ≠ "kmeans" ∧ algorithm ≠ "hac" ∧ algorithm ≠ "modularity")
    (hb : buses.length ≠ 1) :
    busmap_for_country kmeansF hacF modF algorithm pfx buses =
      .error ("algorithm must be one of kmeans, hac, or modularity. Is "
        ++ algorithm ++ ".") := by
  obtain ⟨h1, h2, h3⟩ := halg
  cases buses with
  | nil =>
    simp only [busmap_for_country]
    rw [if_neg h1, if_neg h2, if_neg h3]
  | cons b bs =>
    cases bs with
    | nil => exact absurd rfl hb
    | cons b2 bs2 =>
      simp only [busmap_for_country]
      rw [if_neg h1, if_neg h2, if_neg h3]

/-- C8 (counterexample): `busmap_for_n_clusters` with the unsupported
algorithm name `invalid` succeeds — no fatal error is raised — on a network
whose only partition holds a single bus, because the single-bus
short-circuit runs before the algorithm dispatch. -/
theorem busmap_unsupported_single_bus_cex :
    busmap_for_n_clusters (fun _ => []) (fun _ => []) (fun _ => [])
        "invalid" [("DE0 ", ["bus1"])] = .ok [("bus1", "DE0 0")] := rfl

/-- C8 (amended): for every unsupported algorithm name, the Partitioning
Engine raises the fatal `ValueError` on every network containing at least
one partition with a number of buses different from one; single-bus
partitions short-circuit to the trivial cluster without consulting the
algorithm name. -/
theorem busmap_unsupported_raises (kmeansF hacF modF : List String → List String)
    (algorithm : String) (partitions : List (String × List String))
    (halg : algorithm ≠ "kmeans" ∧ algorithm ≠ "hac" ∧ algorithm ≠ "modularity")
    (hp : ∃ p ∈ partitions, p.2.length ≠ 1) :
    busmap_for_n_clusters kmeansF hacF modF algorithm partitions =
      .error ("algorithm must be one of kmeans, hac, or modularity. Is "
        ++ algorithm ++ ".") := by
  revert hp
  induction partitions with
  | nil =>
    intro hp
    simp at hp
  | cons p ps ih =>
    intro hp
    obtain ⟨q, hq, hlen⟩ := hp
    by_cases hplen : p.2.length = 1
    · have hq2 : q ∈ ps := by
        rcases List.mem_cons.mp hq with rfl | hmem
        · exact absurd hplen hlen
        · exact hmem
      obtain ⟨b, hb⟩ := List.length_eq_one.mp hplen
      simp only [busmap_for_n_clusters]
      rw [hb]
      simp only [busmap_for_country]
      rw [ih ⟨q, hq2, hlen⟩]
    · simp only [busmap_for_n_clusters]
      rw [busmap_for_country_error kmeansF hacF modF algorithm p.1 p.2
        ⟨halg.1, halg.2.1, halg.2.2⟩ hplen]

/-- Witness for C8 (amended) at a two-bus partition. -/
theorem busmap_unsupported_raises_witness :
    busmap_for_n_clusters (fun _ => []) (fun _ => []) (fun _ => [])
        "invalid" [("DE0 ", ["b1", "b2"])] =
      .error ("algorithm must be one of kmeans, hac, or modularity. Is "
        ++ "invalid" ++ ".") :=
  busmap_unsupported_raises (fun _ => []) (fun _ => []) (fun _ => [])
    "invalid" [("DE0 ", ["b1", "b2"])]
    ⟨by decide, by decide, by decide⟩
    ⟨("DE0 ", ["b1", "b2"]), by simp, by decide⟩

theorem posConnCost_nonneg (table : List (String × (String → Option ℚ)))
    (g : Generator) : 0 ≤ posConnCost table g := by
  unfold posConnCost
  apply List.sum_nonneg
  intro a ha
  obtain ⟨tc, _, rfl⟩ := List.mem_map.mp ha
  split_ifs with h1
  · cases h2 : tc.2 g.bus with
    | none => exact le_refl 0
    | some c =>
      dsimp only
      split_ifs with h3
      · exact le_of_lt h3
      · exact le_refl 0
  · exact le_refl 0

theorem posConnCost_eq_zero_of_carrier
    (table : List (String × (String → Option ℚ))) (g : Generator)
    (h : g.carrier ∉ table.map Prod.fst) : posConnCost table g = 0 := by
  unfold posConnCost
  apply List.sum_eq_zero
  intro a ha
  obtain ⟨tc, htc, rfl⟩ := List.mem_map.mp ha
  rw [if_neg]
  intro he
  exact h (List.mem_map.mpr ⟨tc, htc, he.symm⟩)

theorem posConnCost_eq_zero_of_nonpos
    (table : List (String × (String → Option ℚ))) (g : Generator)
    (h : ∀ tc ∈ table, g.carrier = tc.1 → ∀ c, tc.2 g.bus = some c → c ≤ 0) :
    posConnCost table g = 0 := by
  unfold posConnCost
  apply List.sum_eq_zero
  intro a ha
  obtain ⟨tc, htc, rfl⟩ := List.mem_map.mp ha
  split_ifs with h1
  · cases h2 : tc.2 g.bus with
    | none => rfl
    | some c =>
      dsimp only
      rw [if_neg (not_lt.mpr (h tc htc h1 c h2))]
  · rfl

/-- C9: the connection-cost adjustment factors through `adjust_generator`,
which never decreases `capital_cost`, adds exactly the strictly positive
connection costs of matching-technology columns, leaves every other
generator attribute unchanged, and leaves `capital_cost` unchanged for
generators of non-matching carriers or with no strictly positive computed
connection cost. -/
theorem adjust_capital_costs_frame
    (table : List (String × (String → Option ℚ))) (g : Generator) :
    adjust_capital_costs table [g] = [adjust_generator table g] ∧
    (adjust_generator table g).name = g.name ∧
    (adjust_generator table g).bus = g.bus ∧
    (adjust_generator table g).carrier = g.carrier ∧
    (adjust_generator table g).p_nom = g.p_nom ∧
    g.capital_cost ≤ (adjust_generator table g).capital_cost ∧
    (adjust_generator table g).capital_cost
      = g.capital_cost + posConnCost table g ∧
    (g.carrier ∉ table.map Prod.fst →
      (adjust_generator table g).capital_cost = g.capital_cost) ∧
    ((∀ tc ∈ table, g.carrier = tc.1 → ∀ c, tc.2 g.bus = some c → c ≤ 0) →
      (adjust_generator table g).capital_cost = g.capital_cost) := by
  refine ⟨rfl, rfl, rfl, rfl, rfl, ?_, rfl, ?_, ?_⟩
  · have := posConnCost_nonneg table g
    unfold adjust_generator
    dsimp only
    linarith
  · intro h
    unfold adjust_generator
    dsimp only
    rw [posConnCost_eq_zero_of_carrier table g h, add_zero]
  · intro h
    unfold adjust_generator
    dsimp only
    rw [posConnCost_eq_zero_of_nonpos table g h, add_zero]

/-- Witness for C9 at the sample one-column cost table. -/
theorem adjust_capital_costs_frame_witness :
    (adjust_generator sampleCostTable sampleGenerator).capital_cost
      = sampleGenerator.capital_cost
        + posConnCost sampleCostTable sampleGenerator ∧
    sampleGenerator.capital_cost
      ≤ (adjust_generator sampleCostTable sampleGenerator).capital_cost :=
  ⟨(adjust_capital_costs_frame sampleCostTable sampleGenerator).2.2.2.2.2.2.1,
   (adjust_capital_costs_frame sampleCostTable sampleGenerator).2.2.2.2.2.1⟩

/-- C10: the TSO branch of `distribute_clusters` replaces the bus table by
its inner join with the bus → TSO mapping: the surviving bus indices are
exactly those present in the TSO mapping (order preserved), every bus with
a TSO entry survives with its TSO attached, and every bus absent from the
TSO mapping is silently dropped rather than raising an error. -/
theorem merge_tso_inner_join (buses tso : List (String × String)) :
    ((merge_tso buses tso).map (fun r => r.1)
      = (buses.filter (fun p => (tso.lookup p.1).isSome)).map Prod.fst) ∧
    (∀ p ∈ buses, ∀ t, tso.lookup p.1 = some t →
        (p.1, p.2, t) ∈ merge_tso buses tso) ∧
    (∀ p ∈ buses, tso.lookup p.1 = none →
        ∀ t, (p.1, p.2, t) ∉ merge_tso buses tso) := by
  refine ⟨?_, ?_, ?_⟩
  · induction buses with
    | nil => rfl
    | cons p ps ih =>
      simp only [merge_tso, List.filterMap_cons, List.filter_cons] at ih ⊢
      cases h : tso.lookup p.1 with
      | none => simpa [h] using ih
      | some t => simpa [h] using ih
  · intro p hp t ht
    apply List.mem_filterMap.mpr
    exact ⟨p, hp, by rw [ht]; rfl⟩
  · intro p hp hnone t hmem
    obtain ⟨q, _, hfq⟩ := List.mem_filterMap.mp hmem
    obtain ⟨tq, htq, heq⟩ := Option.map_eq_some.mp hfq
    simp only [Prod.mk.injEq] at heq
    rw [heq.1] at htq
    rw [hnone] at htq
    exact Option.noConfusion htq

/-- Witness for C10: `B1` (present in the TSO map) survives with its TSO,
`B2` (absent) is dropped. -/
theorem merge_tso_inner_join_witness :
    ("B1", "DE", "TenneT") ∈ merge_tso sampleBuses sampleTso ∧
    ("B2", "DE", "X") ∉ merge_tso sampleBuses sampleTso :=
  ⟨(merge_tso_inner_join sampleBuses sampleTso).2.1 ("B1", "DE")
      (by simp [sampleBuses]) "TenneT" (by decide),
   (merge_tso_inner_join sampleBuses sampleTso).2.2 ("B2", "DE")
      (by simp [sampleBuses]) (by decide) "X"⟩

theorem sum_map_add {κ : Type} (l : List κ) (A B : κ → ℚ) :
    (l.map (fun k => A k + B k)).sum = (l.map A).sum + (l.map B).sum := by
  induction l with
  | nil => simp
  | cons k l ih =>
    simp only [List.map_cons, List.sum_cons, ih]
    ring

theorem sum_map_ite_eq {κ : Type} [DecidableEq κ] (ks : List κ) (x : κ)
    (c : ℚ) (hnd : ks.Nodup) (hx : x ∈ ks) :
    (ks.map (fun k => if x = k then c else 0)).sum = c := by
  induction ks with
  | nil => cases hx
  | cons k ks ih =>
    rcases List.mem_cons.mp hx with rfl | hx2
    · simp only [List.map_cons, List.sum_cons, if_pos rfl]
      have hz : (ks.map (fun k2 => if x = k2 then c else 0)).sum = 0 := by
        apply List.sum_eq_zero
        intro a ha
        obtain ⟨k2, hk2, rfl⟩ := List.mem_map.mp ha
        rw [if_neg]
        intro he
        exact (List.nodup_cons.mp hnd).1 (he ▸ hk2)
      rw [hz, add_zero]
      simp
    · have hneq : x ≠ k := by
        intro he
        exact (List.nodup_cons.mp hnd).1 (he ▸ hx2)
      simp only [List.map_cons, List.sum_cons, if_neg hneq, zero_add]
      exact ih (List.nodup_cons.mp hnd).2 hx2

theorem filter_key_eq_nil {α κ : Type} [DecidableEq κ] (key : α → κ)
    (l : List α) (x : κ) (hx : x ∉ l.map key) :
    l.filter (fun a => key a = x) = [] := by
  rw [List.filter_eq_nil_iff]
  intro a ha
  simp only [decide_eq_true_eq]
  intro he
  exact hx (List.mem_map.mpr ⟨a, ha, he⟩)

/-- Summing any quantity group-by-group over the distinct keys recovers the
total sum: the heart of aggregate-capacity conservation. -/
theorem sum_dedup_filter {α κ : Type} [DecidableEq κ] (key : α → κ)
    (f : α → ℚ) (l : List α) :
    (((l.map key).dedup).map
      (fun k => ((l.filter (fun a => key a = k)).map f).sum)).sum
      = (l.map f).sum := by
  induction l with
  | nil => simp
  | cons a l ih =>
    have hsplit : ∀ k : κ, (((a :: l).filter (fun b => key b = k)).map f).sum
        = (if key a = k then f a else 0)
          + ((l.filter (fun b => key b = k)).map f).sum := by
      intro k
      rw [List.filter_cons]
      by_cases h : key a = k
      · simp [h]
      · simp [h]
    by_cases hmem : key a ∈ l.map key
    · rw [List.map_cons, List.dedup_cons_of_mem hmem]
      simp only [hsplit]
      rw [sum_map_add]
      rw [ih]
      rw [sum_map_ite_eq ((l.map key).dedup) (key a) (f a)
        (List.nodup_dedup _) (List.mem_dedup.mpr hmem)]
      simp
    · rw [List.map_cons, List.dedup_cons_of_not_mem hmem]
      simp only [List.map_cons, List.sum_cons, hsplit, if_pos rfl]
      rw [filter_key_eq_nil key l (key a) hmem]
      simp only [List.map_nil, List.sum_nil, add_zero]
      have hrest : ((l.map key).dedup).map
          (fun k => (if key a = k then f a else 0)
            + ((l.filter (fun b => key b = k)).map f).sum)
          = ((l.map key).dedup).map
          (fun k => ((l.filter (fun b => key b = k)).map f).sum) := by
        apply List.map_congr_left
        intro k hk
        rw [if_neg, zero_add]
        intro he
        exact hmem (he ▸ List.mem_dedup.mp hk)
      rw [hrest, ih]
      simp [List.map_cons, List.sum_cons]

theorem aggregate_generators_capacity (bm : List (String × String))
    (gens : List Generator) :
    ((aggregate_generators bm gens).map Generator.p_nom).sum
      = (gens.map Generator.p_nom).sum := by
  unfold aggregate_generators
  rw [List.map_map]
  exact sum_dedup_filter (fun g => (applyBm bm g.bus, g.carrier))
    Generator.p_nom gens

theorem aggregate_loads_total (bm : List (String × String))
    (loads : List Load) :
    ((aggregate_loads bm loads).map Load.p_set).sum
      = (loads.map Load.p_set).sum := by
  unfold aggregate_loads
  rw [List.map_map]
  exact sum_dedup_filter (fun l => applyBm bm l.bus) Load.p_set loads

/-- C2: applying the Aggregator with the identity busmap leaves total
generator capacity, total load and the bus count unchanged. -/
theorem aggregate_identity_busmap (n : Network) :
    totalGenCapacity (aggregate_and_move_components n (identityBusmap n))
      = totalGenCapacity n ∧
    totalLoad (aggregate_and_move_components n (identityBusmap n))
      = totalLoad n ∧
    (aggregate_and_move_components n (identityBusmap n)).buses.length
      = n.buses.length := by
  refine ⟨?_, ?_, ?_⟩
  · exact aggregate_generators_capacity (identityBusmap n) n.generators
  · exact aggregate_loads_total (identityBusmap n) n.loads
  · show (n.buses.filter
        (fun b => b.name ∈ (identityBusmap n).map Prod.snd)).length
        = n.buses.length
    have hall : n.buses.filter
        (fun b => b.name ∈ (identityBusmap n).map Prod.snd) = n.buses := by
      rw [List.filter_eq_self]
      intro b hb
      simp only [decide_eq_true_eq]
      unfold identityBusmap
      rw [List.map_map]
      exact List.mem_map.mpr ⟨b, hb, rfl⟩
    rw [hall]

/-- C3: on the synthetic DC chain `A – B – C – D` (boundary buses `A`, `D`;
equal per-segment length `len` and capacity on every segment), Link Folding
produces exactly one replacement link, between `A` and `D`, of length
`3 * len` and capacity equal to the (common, hence minimum) segment
capacity, and buses `B` and `C` no longer exist in the resulting network. -/
theorem simplify_links_dc_chain (len cap : ℚ) :
    ((simplify_links (chain_network len cap)).1.links.map
      (fun l => (l.bus0, l.bus1, l.length, l.p_nom))
      = [("A", "D", 3 * len, cap)]) ∧
    ((simplify_links (chain_network len cap)).1.buses.map Bus.name
      = ["A", "D", "E", "F"]) := by
  have hb : (chain_network len cap).buses = (chain_network 0 0).buses := rfl
  have hle : link_edges (chain_network len cap)
      = link_edges (chain_network 0 0) := by
    simp [link_edges, chain_network]
  have hge : graph_edges (chain_network len cap)
      = graph_edges (chain_network 0 0) := by
    simp [graph_edges, chain_network]
  have hadj : graph_adj (chain_network len cap)
      = graph_adj (chain_network 0 0) := by
    funext b
    unfold graph_adj
    rw [hge]
  have hcomp_eq : component_of (chain_network len cap)
      = component_of (chain_network 0 0) := by
    funext b
    unfold component_of
    rw [hle, hb]
  have hcomps : big_link_components (chain_network len cap)
      = [["A", "B", "C", "D"]] := by
    unfold big_link_components
    rw [hcomp_eq, hb]
    decide
  have hsplit : split_links (graph_adj (chain_network len cap))
      ["A", "B", "C", "D"] (chain_network len cap).buses
      = [(("A", "D"), ["A", "B", "C", "D"],
          [[("Link", "LAB")], [("Link", "LBC")], [("Link", "LCD")]])] := by
    rw [hadj, hb]
    decide
  have hposA : bus_pos (chain_network len cap) "A" = (0, 0) := rfl
  have hposB : bus_pos (chain_network len cap) "B" = (1, 0) := rfl
  have hposC : bus_pos (chain_network len cap) "C" = (2, 0) := rfl
  have hposD : bus_pos (chain_network len cap) "D" = (3, 0) := rfl
  have hnearB : nearest_endpoint (chain_network len cap) "A" "D" "B" = "A"
      := by
    unfold nearest_endpoint
    rw [hposA, hposB, hposD, if_pos]
    unfold dist2
    norm_num
  have hnearC : nearest_endpoint (chain_network len cap) "A" "D" "C" = "D"
      := by
    unfold nearest_endpoint
    rw [hposA, hposC, hposD, if_neg]
    unfold dist2
    norm_num
  have hassign : chain_assignment (chain_network len cap) "A" "D"
      ["A", "B", "C", "D"]
      = [("A", "A"), ("B", "A"), ("C", "D"), ("D", "D")] := by
    simp only [chain_assignment, interior_assignment, hnearB, hnearC]
  have hid : identityBusmap (chain_network len cap)
      = [("A", "A"), ("B", "B"), ("C", "C"), ("D", "D"), ("E", "E"),
         ("F", "F")] := rfl
  have hbm2 : busmap_set
      [("A", "A"), ("B", "B"), ("C", "C"), ("D", "D"), ("E", "E"), ("F", "F")]
      [("A", "A"), ("B", "A"), ("C", "D"), ("D", "D")]
      = [("A", "A"), ("B", "A"), ("C", "D"), ("D", "D"), ("E", "E"),
         ("F", "F")] := by
    decide
  have hne : (chain_network len cap).links.isEmpty = false := rfl
  simp only [simplify_links, hne, Bool.false_eq_true, if_false, hcomps,
    hsplit, List.foldl_cons, List.foldl_nil]
  simp only [process_chain, List.length_cons, List.length_nil]
  norm_num
  simp only [hassign, hid, hbm2]
  have hlkAB : link_by_name (chain_network len cap).links "LAB"
      = { name := "LAB", bus0 := "A", bus1 := "B", carrier := "DC",
          length := len, p_nom := cap, underwater_fraction := 0 } := rfl
  have hlkBC : link_by_name (chain_network len cap).links "LBC"
      = { name := "LBC", bus0 := "B", bus1 := "C", carrier := "DC",
          length := len, p_nom := cap, underwater_fraction := 0 } := rfl
  have hlkCD : link_by_name (chain_network len cap).links "LCD"
      = { name := "LCD", bus0 := "C", bus1 := "D", carrier := "DC",
          length := len, p_nom := cap, underwater_fraction := 0 } := rfl
  have hlinks : (chain_network len cap).links
      = [{ name := "LAB", bus0 := "A", bus1 := "B", carrier := "DC",
           length := len, p_nom := cap, underwater_fraction := 0 },
         { name := "LBC", bus0 := "B", bus1 := "C", carrier := "DC",
           length := len, p_nom := cap, underwater_fraction := 0 },
         { name := "LCD", bus0 := "C", bus1 := "D", carrier := "DC",
           length := len, p_nom := cap, underwater_fraction := 0 }] := rfl
  rw [hlkAB, hlkBC, hlkCD]
  simp only [hlinks, chain_network]
  simp [aggregate_and_move_components, aggregate_generators, aggregate_loads,
    applyBm, lookupD, list_mean, list_min]
  ring

/-- C6: Link Folding assigns every interior bus of a chain to the
geometrically nearest boundary endpoint: `interior_assignment` labels each
interior bus through `nearest_endpoint`, which always returns one of the
two endpoints and minimizes the squared — and therefore, square roots
being monotone, also the Euclidean — distance to the bus. -/
theorem interior_assignment_nearest (n : Network) (b0 bN q q2 : String)
    (rest : List String) :
    interior_assignment n b0 bN (q :: q2 :: rest)
      = (q, nearest_endpoint n b0 bN q)
        :: interior_assignment n b0 bN (q2 :: rest) ∧
    (nearest_endpoint n b0 bN q = b0 ∨ nearest_endpoint n b0 bN q = bN) ∧
    dist2 (bus_pos n (nearest_endpoint n b0 bN q)) (bus_pos n q)
      ≤ dist2 (bus_pos n b0) (bus_pos n q) ∧
    dist2 (bus_pos n (nearest_endpoint n b0 bN q)) (bus_pos n q)
      ≤ dist2 (bus_pos n bN) (bus_pos n q) ∧
    Real.sqrt ((dist2 (bus_pos n (nearest_endpoint n b0 bN q)) (bus_pos n q)
        : ℚ) : ℝ)
      ≤ Real.sqrt ((dist2 (bus_pos n b0) (bus_pos n q) : ℚ) : ℝ) ∧
    Real.sqrt ((dist2 (bus_pos n (nearest_endpoint n b0 bN q)) (bus_pos n q)
        : ℚ) : ℝ)
      ≤ Real.sqrt ((dist2 (bus_pos n bN) (bus_pos n q) : ℚ) : ℝ) := by
  refine ⟨rfl, ?_⟩
  unfold nearest_endpoint
  by_cases h : dist2 (bus_pos n b0) (bus_pos n q)
      ≤ dist2 (bus_pos n bN) (bus_pos n q)
  · rw [if_pos h]
    refine ⟨Or.inl rfl, le_refl _, h, le_refl _, ?_⟩
    exact Real.sqrt_le_sqrt (by exact_mod_cast h)
  · rw [if_neg h]
    have h2 : dist2 (bus_pos n bN) (bus_pos n q)
        ≤ dist2 (bus_pos n b0) (bus_pos n q) := le_of_not_le h
    refine ⟨Or.inr rfl, h2, le_refl _, ?_, le_refl _⟩
    exact Real.sqrt_le_sqrt (by exact_mod_cast h2)

end PyPSA
